import Mathlib

/-!
Shallow embedding of the project-viewer repository's discovery and
metadata-extraction pipeline (src/lib/github.ts), configuration loader
(src/lib/config.ts) and gallery filtering (components/projects-gallery.tsx),
together with theorems settling the specification claims.

Network interaction (the GitHub contents API and raw-file downloads) is
modelled as an explicit environment: a partial map from logical repository
paths to directory listings, and from download URLs to raw file text.
URL-encoding of path segments (`encodeURIComponent`) is transparent in this
model, which is keyed by decoded logical paths.
-/

/-! ### A small backtracking regex engine

`github.ts` matches Markdown lines with the JavaScript regexes
`/\*\*Project?\s*Description?:\*\*\s*(.+)/i` and
`/\*\*Languages?\s*&\s*Technologies?:\*\*\s*(.+)/i`.
Both have the shape: case-insensitive literal characters, optional single
characters (`t?`, `s?`, `n?`), greedy whitespace runs (`\s*`), and a final
greedy capture `(.+)` where `.` matches any character except `\n`/`\r`.
`RElem` is that pattern alphabet; `runPat` is a standard backtracking
matcher (greedy alternatives tried first, exactly as a JS engine does),
and `scanPat` performs the leftmost-match scan of `String.prototype.match`.
-/

inductive RElem where
  | lit (c : Char)
  | optc (c : Char)
  | ws
  | cap
deriving DecidableEq

/-- Characters matched by `.` in a JavaScript regex (no line terminators;
lines here never contain `\n`, but may contain `\r`). -/
def dotChar (c : Char) : Bool := c != '\n' && c != '\r'

/-- Alternatives for a greedy `\s*`: the suffixes of the input obtained by
dropping `k` leading whitespace characters, for `k` from maximal down to 0
(greedy-first order, as a backtracking engine explores them). -/
def wsAlts : List Char → List (List Char)
  | [] => [[]]
  | x :: xs => if x.isWhitespace then wsAlts xs ++ [x :: xs] else [x :: xs]

/-- Try a continuation against each alternative suffix in order, returning
the first success (backtracking order). -/
def tryEach (f : List Char → Option (List Char)) : List (List Char) → Option (List Char)
  | [] => none
  | r :: rest =>
    match f r with
    | some out => some out
    | none => tryEach f rest

/-- Backtracking matcher: try to match the pattern elements at the start of
the input, returning the text captured by the final `(.+)` on success.
Case-insensitive comparison mirrors the `i` flag; greedy alternatives are
tried first, exactly as a JS engine does. -/
def runPat : List RElem → List Char → Option (List Char)
  | [], _ => none
  | .lit _ :: _, [] => none
  | .lit c :: ps, x :: xs =>
      if x.toLower == c.toLower then runPat ps xs else none
  | .optc _ :: ps, [] => runPat ps []
  | .optc c :: ps, x :: xs =>
      if x.toLower == c.toLower then
        match runPat ps xs with
        | some r => some r
        | none => runPat ps (x :: xs)
      else runPat ps (x :: xs)
  | .ws :: ps, xs => tryEach (runPat ps) (wsAlts xs)
  | .cap :: _, xs =>
      let run := xs.takeWhile dotChar
      if run.isEmpty then none else some run

/-- Leftmost-match scan: JavaScript `line.match(re)` looks for a match
starting at every position, earliest first. -/
def scanPat (p : List RElem) : List Char → Option (List Char)
  | [] => runPat p []
  | x :: xs =>
    match runPat p (x :: xs) with
    | some r => some r
    | none => scanPat p xs

/-- Case-insensitive literal characters of a string as pattern elements. -/
def lits (s : String) : List RElem := s.toList.map RElem.lit

/-- The description regex `/\*\*Project?\s*Description?:\*\*\s*(.+)/i`
(github.ts line 178). -/
def descPattern : List RElem :=
  lits ("**Projec") ++ [RElem.optc 't', RElem.ws] ++ lits ("Descriptio") ++
    [RElem.optc 'n'] ++ lits (":**") ++ [RElem.ws, RElem.cap]

/-- The tags regex `/\*\*Languages?\s*&\s*Technologies?:\*\*\s*(.+)/i`
(github.ts line 236). -/
def tagsPattern : List RElem :=
  lits ("**Language") ++ [RElem.optc 's', RElem.ws] ++ lits ("&") ++ [RElem.ws] ++
    lits ("Technologie") ++ [RElem.optc 's'] ++ lits (":**") ++ [RElem.ws, RElem.cap]

/-- `line.match(re)` restricted to the capture group: the captured text of
the leftmost match, or `none` when the line does not match. -/
def matchCapture (p : List RElem) (line : String) : Option String :=
  (scanPat p line.toList).map fun cs => String.mk cs

/-! ### JavaScript string primitives

Structurally recursive models of the JavaScript string operations the
source uses (`split`, `trim`, `toLowerCase`, `endsWith`, `includes`),
written over `List Char` so that every definition evaluates by kernel
reduction.
-/

/-- Splitting a character list on a separator character; JS
`"".split(x)` yields `[""]` and a trailing separator yields a trailing
empty segment, exactly as here. -/
def splitOnChar (sep : Char) : List Char → List (List Char)
  | [] => [[]]
  | c :: cs =>
    if c == sep then [] :: splitOnChar sep cs
    else
      match splitOnChar sep cs with
      | [] => [[c]]
      | h :: t => (c :: h) :: t

/-- JS `s.split(sep)` for a single-character separator. -/
def jsSplit (s : String) (sep : Char) : List String :=
  (splitOnChar sep s.toList).map String.mk

/-- JS `s.trim()`: strip leading and trailing whitespace. -/
def jsTrim (s : String) : String :=
  String.mk (((s.toList.dropWhile Char.isWhitespace).reverse.dropWhile
    Char.isWhitespace).reverse)

/-- JS `s.toLowerCase()` (ASCII case mapping suffices for this code). -/
def jsToLower (s : String) : String := String.mk (s.toList.map Char.toLower)

/-- JS `s.endsWith(post)`. -/
def jsEndsWith (s post : String) : Bool := post.toList.isSuffixOf s.toList

/-- Substring containment on character lists: some suffix of the haystack
starts with the needle. -/
def charsContain (needle : List Char) : List Char → Bool
  | [] => needle.isEmpty
  | x :: xs => needle.isPrefixOf (x :: xs) || charsContain needle xs

/-- JS `s.includes(sub)`. -/
def jsIncludes (s sub : String) : Bool := charsContain sub.toList s.toList

/-! ### Markdown field extraction (pure core)

The line-position logic of `extractDescriptionFromProject`
(github.ts lines 171-186) and `extractTagsFromProject`
(github.ts lines 229-245), applied to fetched raw Markdown text.
-/

/-- Description from raw Markdown: split on `"\n"`, and when at least 3
lines exist match line index 2 against `descPattern`; the capture is
returned as-is (the source does `return desc` without trimming). -/
def extractDescriptionFromContent (content : String) : String :=
  let lines := jsSplit content '\n'
  if lines.length ≥ 3 then
    match matchCapture descPattern (lines.getD 2 "") with
    | some desc => desc
    | none => ""
  else ""

/-- Tags from raw Markdown: split on `"\n"`, and when at least 5 lines
exist match line index 4 against `tagsPattern`; the capture is split on
commas, each segment trimmed, empty segments dropped. -/
def extractTagsFromContent (content : String) : List String :=
  let lines := jsSplit content '\n'
  if lines.length ≥ 5 then
    match matchCapture tagsPattern (lines.getD 4 "") with
    | some tagsString =>
        ((jsSplit tagsString ',').map jsTrim).filter fun tag => tag.length > 0
    | none => []
  else []

/-! ### Remote model and project discovery (github.ts)

`GHEnv` abstracts the read-only GitHub HTTP surface: `listing path` is the
contents-API response for
`GET .../repos/<owner>/projects/contents/<path>` (`none` models a failed
or non-ok response; the root listing is keyed by `""`), and `raw url` is
the body of `GET url` for a `download_url`.
-/

/-- An entry of a contents-API response (interface `ProjectFile` in
github.ts). -/
structure ProjectFile where
  name : String
  path : String
  type : String
  download_url : Option String
deriving DecidableEq

/-- A discovered project descriptor (interface `ProjectWithTags` in
github.ts). -/
structure ProjectWithTags where
  name : String
  path : String
  type : String
  tags : List String
  status : String
deriving DecidableEq

/-- The remote surface the functions of github.ts read from. -/
structure GHEnv where
  listing : String → Option (List ProjectFile)
  raw : String → Option String

/-- `const STATUS_DIRS = ["Completed", "In Progress", "Incomplete"]`. -/
def STATUS_DIRS : List String := ["Completed", "In Progress", "Incomplete"]

/-- `pathHasSlash` (github.ts line 105): `nameOrPath.includes("/")`. -/
def pathHasSlash (nameOrPath : String) : Bool := nameOrPath.toList.contains '/'

/-- JS truthiness of a nullable string (`null` and `""` are falsy). -/
def jsTruthyStr : Option String → Bool
  | none => false
  | some s => !s.isEmpty

/-- The probe loop of `resolveProjectPath` (github.ts lines 125-132): try
`"<status>/<name>"` for each status folder in order, returning the first
whose contents request succeeds. -/
def probeStatus (env : GHEnv) (nameOrPath : String) : List String → Option String
  | [] => none
  | status :: rest =>
    let tryPath := status ++ "/" ++ nameOrPath
    if (env.listing tryPath).isSome then some tryPath
    else probeStatus env nameOrPath rest

/-- `resolveProjectPath` (github.ts lines 116-134): a path containing a
slash is trusted as-is; otherwise the bare name is probed, then each
status prefix in `STATUS_DIRS` order; `none` models the function's
`null`. -/
def resolveProjectPath (env : GHEnv) (nameOrPath : String) : Option String :=
  if pathHasSlash nameOrPath then some nameOrPath
  else if (env.listing nameOrPath).isSome then some nameOrPath
  else probeStatus env nameOrPath STATUS_DIRS

/-- The Markdown-file selection shared by the extractors (github.ts lines
156, 214): the first file whose name lowercases to a `.md` suffix and
whose `download_url` is truthy. -/
def findMarkdownFile (files : List ProjectFile) : Option ProjectFile :=
  files.find? fun file => jsEndsWith (jsToLower file.name) (".md") && jsTruthyStr file.download_url

/-- `extractDescriptionFromProject` (github.ts lines 136-191): resolve the
path, list the folder, pick the first Markdown file, download it, and read
the description from line index 2. Every failure returns `""`. Note the
source returns a plain string: no `redirectUrl` is produced anywhere. -/
def extractDescriptionFromProject (env : GHEnv) (projectName : String) : String :=
  match resolveProjectPath env projectName with
  | none => ""
  | some projectPath =>
    match env.listing projectPath with
    | none => ""
    | some files =>
      match findMarkdownFile files with
      | none => ""
      | some markdownFile =>
        match markdownFile.download_url with
        | none => ""
        | some url =>
          match env.raw url with
          | none => ""
          | some content => extractDescriptionFromContent content

/-- `extractTagsFromProject` (github.ts lines 194-252): same pipeline,
reading the comma-separated tag list from line index 4. Every failure
returns `[]`. -/
def extractTagsFromProject (env : GHEnv) (projectName : String) : List String :=
  match resolveProjectPath env projectName with
  | none => []
  | some projectPath =>
    match env.listing projectPath with
    | none => []
    | some files =>
      match findMarkdownFile files with
      | none => []
      | some markdownFile =>
        match markdownFile.download_url with
        | none => []
        | some url =>
          match env.raw url with
          | none => []
          | some content => extractTagsFromContent content

/-- Folder-type entries of a listing (`item.type === "dir"`). -/
def dirOnly (items : List ProjectFile) : List ProjectFile :=
  items.filter fun item => item.type == "dir"

/-- The recognized status folders of the root listing
(github.ts line 33). -/
def statusRootsOf (data : List ProjectFile) : List ProjectFile :=
  (dirOnly data).filter fun dir => STATUS_DIRS.contains dir.name

/-- The fallback that treats the given root folders as ungrouped projects
with `status = "Uncategorized"` (github.ts lines 37-48 and 83-94). -/
def uncategorizedOf (env : GHEnv) (dirs : List ProjectFile) : List ProjectWithTags :=
  dirs.map fun dir =>
    { name := dir.name, path := dir.name, type := dir.type,
      tags := extractTagsFromProject env dir.name, status := "Uncategorized" }

/-- One iteration of the status-folder loop of `getProjects` (github.ts
lines 53-77): list the folder's children (a failed response contributes
nothing, `if (!subResp.ok) continue`), keep folder-type entries, and emit
one descriptor per child. -/
def perStatus (env : GHEnv) (statusDir : ProjectFile) : List ProjectWithTags :=
  match env.listing statusDir.name with
  | none => []
  | some sub =>
    (dirOnly sub).map fun s =>
      { name := s.name, path := statusDir.name ++ "/" ++ s.name, type := s.type,
        tags := extractTagsFromProject env (statusDir.name ++ "/" ++ s.name),
        status := statusDir.name }

/-- `getProjects` (github.ts lines 18-103): fetch the root listing (a
failure yields `[]` via the catch), partition folders into recognized
status folders and the rest, walk the status folders, and fall back to
ungrouped projects when no status folder exists, or when the walk found
nothing and non-status folders exist. -/
def getProjects (env : GHEnv) : List ProjectWithTags :=
  match env.listing "" with
  | none => []
  | some data =>
    let directories := dirOnly data
    let statusRoots := statusRootsOf data
    if statusRoots.isEmpty then
      uncategorizedOf env directories
    else
      let projectsWithTags := statusRoots.flatMap (perStatus env)
      if projectsWithTags.isEmpty then
        let nonStatusDirs := directories.filter fun dir => !STATUS_DIRS.contains dir.name
        if !nonStatusDirs.isEmpty then uncategorizedOf env nonStatusDirs
        else projectsWithTags
      else projectsWithTags

/-! ### Configuration loader (src/lib/config.ts)

`loadConfigFromDisk` reads `config.yaml`, parses it, and validates the
result. The file system and YAML parser are external, so the function is
modelled as taking the parse outcome directly: `none` for a missing file,
`some none` for a parse result that is not an object (`undefined`/scalar),
and `some (some parsed)` for a parsed object. The dynamically-typed parse
result is modelled with `Option` fields (`none` = absent or of the wrong
shape). Throws are modelled as `Except.error` with the thrown message
(the message elides the absolute config path of the original). The
function performs no remote call: its only input is the parsed file.
-/

/-- A parsed `tagCategories` entry value (fields may be absent). -/
structure ParsedTagCategory where
  classes : Option String
  tags : Option (List String)
deriving DecidableEq

/-- A parsed `statusStyles` entry value (field may be absent). -/
structure ParsedStatusStyle where
  folderClasses : Option String
deriving DecidableEq

/-- The parse result of `config.yaml` (`Partial<AppConfig>`); entry values
that are not objects are `none`. -/
structure ParsedConfig where
  githubUser : Option String
  tagCategories : List (String × Option ParsedTagCategory)
  statusStyles : List (String × Option ParsedStatusStyle)
deriving DecidableEq

/-- A validated `tagCategories` entry (type `TagCategoryConfig`). -/
structure TagCategoryConfig where
  classes : String
  tags : List String
deriving DecidableEq

/-- A validated `statusStyles` entry (type `StatusStyleConfig`, with the
`folderClasses` field present). -/
structure StatusStyleConfig where
  folderClasses : String
deriving DecidableEq

/-- The validated configuration (type `AppConfig`); the records are
modelled as association lists in entry order. -/
structure AppConfig where
  githubUser : String
  tagCategories : List (String × TagCategoryConfig)
  statusStyles : List (String × StatusStyleConfig)
deriving DecidableEq

/-- The `tagCategories` reduction of `loadConfigFromDisk` (config.ts lines
53-75): skip non-object values, trim `classes`, trim the tags and drop
falsy ones, and keep the entry only when `classes` is truthy and at least
one tag remains. -/
def reduceTagCategories (entries : List (String × Option ParsedTagCategory)) :
    List (String × TagCategoryConfig) :=
  entries.foldl (fun acc kv =>
    match kv.2 with
    | none => acc
    | some value =>
      let tags := ((value.tags.getD []).map jsTrim).filter fun tag => !tag.isEmpty
      match value.classes.map jsTrim with
      | none => acc
      | some classes =>
        if !classes.isEmpty && !tags.isEmpty then acc ++ [(kv.1, ⟨classes, tags⟩)]
        else acc) []

/-- The `statusStyles` reduction of `loadConfigFromDisk` (config.ts lines
77-98): skip non-object values, key by the trimmed lowercased name, and
keep the entry only when `folderClasses` is truthy. -/
def reduceStatusStyles (entries : List (String × Option ParsedStatusStyle)) :
    List (String × StatusStyleConfig) :=
  entries.foldl (fun acc kv =>
    match kv.2 with
    | none => acc
    | some value =>
      let normalizedKey := jsToLower (jsTrim kv.1)
      if normalizedKey.isEmpty then acc
      else
        match value.folderClasses.map jsTrim with
        | none => acc
        | some folderClasses =>
          if !folderClasses.isEmpty then acc ++ [(normalizedKey, ⟨folderClasses⟩)]
          else acc) []

/-- `loadConfigFromDisk` (config.ts lines 36-105). The `githubUser` check
is `if (!githubUser) throw`: a missing field, or one that trims to the
empty string, aborts loading before anything else is computed. -/
def loadConfigFromDisk (file : Option (Option ParsedConfig)) : Except String AppConfig :=
  match file with
  | none => Except.error ("config.yaml not found")
  | some none => Except.error ("config.yaml is empty or invalid")
  | some (some parsed) =>
    match parsed.githubUser.map jsTrim with
    | none => Except.error ("config.yaml must define a non-empty githubUser value")
    | some githubUser =>
      if githubUser.isEmpty then
        Except.error ("config.yaml must define a non-empty githubUser value")
      else
        Except.ok
          { githubUser := githubUser,
            tagCategories := reduceTagCategories parsed.tagCategories,
            statusStyles := reduceStatusStyles parsed.statusStyles }

/-! ### Gallery filtering (components/projects-gallery.tsx)

The `filteredProjects` memo (lines 227-240 of the gallery component) is a
pure function of the project list and the three filter controls.
-/

/-- A project card as the gallery receives it (type `ProjectCard`). -/
structure ProjectCard where
  name : String
  path : String
  type : String
  tags : List String
  status : String
  description : String
  redirectUrl : Option String
deriving DecidableEq

/-- `filteredProjects` (projects-gallery.tsx lines 227-240): the search
term is trimmed and lowercased once; a project is kept when its lowercased
name contains the term, its lowercased status equals the filter (or the
filter is `"all"`), and every selected tag occurs in the project's
lowercased tag list (AND semantics). -/
def filteredProjects (projects : List ProjectCard) (searchTerm statusFilter : String)
    (selectedTags : List String) : List ProjectCard :=
  let term := jsToLower (jsTrim searchTerm)
  projects.filter fun project =>
    let matchesName := jsIncludes (jsToLower project.name) term
    let projectStatus := jsToLower project.status
    let matchesStatus := statusFilter == "all" || projectStatus == statusFilter
    let normalizedTags := project.tags.map jsToLower
    let matchesTags := selectedTags.isEmpty ||
      selectedTags.all fun tag => normalizedTags.contains tag
    matchesName && matchesStatus && matchesTags

/-! ### Specification-side definitions

Definitions written from the specification's words, for comparison with
the source embeddings above: the path-resolution algorithm of spec section
4.2, and the matching rules the gallery-filtering claim states.
-/

/-- The spec's description of path resolution, stated as a probe list: a
slashed input is trusted as-is; otherwise the bare name and then each
`"<status>/<name>"` candidate are probed in the fixed `STATUS_DIRS` order
and the first successful probe wins, `none` when all fail. -/
def resolveSpecOrder (env : GHEnv) (nameOrPath : String) : Option String :=
  if pathHasSlash nameOrPath then some nameOrPath
  else
    (nameOrPath :: STATUS_DIRS.map fun status => status ++ "/" ++ nameOrPath).find?
      fun candidate => (env.listing candidate).isSome

/-- The claim's name rule: the project name contains the search term,
case-insensitively (both sides lowercased, the term not trimmed). -/
abbrev claimNameMatches (project : ProjectCard) (searchTerm : String) : Prop :=
  jsIncludes (jsToLower project.name) (jsToLower searchTerm) = true

/-- The claim's status rule: the filter is `"all"` or the status equals
the filter case-insensitively (both sides lowercased). -/
abbrev claimStatusMatches (project : ProjectCard) (statusFilter : String) : Prop :=
  statusFilter = "all" ∨ jsToLower project.status = jsToLower statusFilter

/-- The claim's tag rule: every selected tag is present case-insensitively
(both sides lowercased) in the project's tag list. -/
abbrev claimTagsMatch (project : ProjectCard) (selectedTags : List String) : Prop :=
  ∀ tag ∈ selectedTags, jsToLower tag ∈ project.tags.map jsToLower

/-- The code's actual name rule: the lowercased name contains the trimmed,
lowercased search term. -/
abbrev codeNameMatches (project : ProjectCard) (searchTerm : String) : Prop :=
  jsIncludes (jsToLower project.name) (jsToLower (jsTrim searchTerm)) = true

/-- The code's actual status rule: the filter is `"all"` or the lowercased
status equals the filter string verbatim (the UI always supplies
lowercased filter values). -/
abbrev codeStatusMatches (project : ProjectCard) (statusFilter : String) : Prop :=
  statusFilter = "all" ∨ jsToLower project.status = statusFilter

/-- The code's actual tag rule: every selected tag string is verbatim
present in the lowercased tag list (the UI always supplies lowercased tag
values). -/
abbrev codeTagsMatch (project : ProjectCard) (selectedTags : List String) : Prop :=
  ∀ tag ∈ selectedTags, tag ∈ project.tags.map jsToLower

/-! ### Concrete instances used by witnesses and counterexamples -/

/-- The spec's demo Markdown content (spec section 8). -/
def demoContent : String :=
  "# Demo\n\n**Project Description:** A test app\n\n**Languages & Technologies:** Go, Rust"

/-- Markdown whose description line carries trailing spaces. -/
def trailingContent : String := "# T\n\n**Project Description:** text  "

/-- The description line of `trailingContent`. -/
def trailingLine : String := "**Project Description:** text  "

/-- Markdown with fewer than five lines. -/
def shortContent : String := "# Demo\n"

/-- Markdown whose first line is the spec's redirect link. -/
def redirectContent : String := "[Demo](https://example.com)"

/-- A remote with a single project `Completed/Demo` whose Markdown is the
redirect link line. -/
def envRedirect : GHEnv where
  listing := fun path =>
    if path == "Completed/Demo" then
      some [{ name := "README.md", path := "Completed/Demo/README.md",
              type := "file", download_url := some "url-demo" }]
    else none
  raw := fun url => if url == "url-demo" then some redirectContent else none

/-- Root listing with two recognized status folders and an unrelated
`Notes` folder. -/
def dataStatusRoot : List ProjectFile :=
  [{ name := "Completed", path := "Completed", type := "dir", download_url := none },
   { name := "In Progress", path := "In Progress", type := "dir", download_url := none },
   { name := "Notes", path := "Notes", type := "dir", download_url := none },
   { name := "readme.md", path := "readme.md", type := "file", download_url := none }]

/-- A remote for the discovery claim: both status folders list
successfully and have one project subfolder each; `Notes` also has
children, which must not surface. -/
def envDiscovery : GHEnv where
  listing := fun path =>
    if path == "" then some dataStatusRoot
    else if path == "Completed" then
      some [{ name := "Alpha", path := "Completed/Alpha", type := "dir", download_url := none },
            { name := "notes.txt", path := "Completed/notes.txt", type := "file", download_url := none }]
    else if path == "In Progress" then
      some [{ name := "Beta", path := "In Progress/Beta", type := "dir", download_url := none }]
    else if path == "Notes" then
      some [{ name := "Junk", path := "Notes/Junk", type := "dir", download_url := none }]
    else none
  raw := fun _ => none

/-- A remote where the `Completed` child listing fails (non-ok response)
while `In Progress` lists successfully. -/
def envFailedStatus : GHEnv where
  listing := fun path =>
    if path == "" then some dataStatusRoot
    else if path == "In Progress" then
      some [{ name := "Beta", path := "In Progress/Beta", type := "dir", download_url := none }]
    else none
  raw := fun _ => none

/-- A parsed configuration whose `githubUser` is whitespace-only. -/
def parsedBlankUser : ParsedConfig where
  githubUser := some "   "
  tagCategories := []
  statusStyles := []

/-- A card whose status is capitalized, for the filtering counterexample. -/
def cardCompleted : ProjectCard where
  name := "Demo"
  path := "Completed/Demo"
  type := "dir"
  tags := []
  status := "Completed"
  description := ""
  redirectUrl := none

/-- A card tagged only `Go`, for the AND-semantics witness. -/
def cardGoOnly : ProjectCard where
  name := "Demo"
  path := "Completed/Demo"
  type := "dir"
  tags := ["Go"]
  status := "Completed"
  description := ""
  redirectUrl := none

/-- A card for the neutral-filter witness. -/
def cardNeutral : ProjectCard where
  name := "Viewer"
  path := "In Progress/Viewer"
  type := "dir"
  tags := ["Rust"]
  status := "In Progress"
  description := "d"
  redirectUrl := none

/-! ### Helper lemmas -/

/-- The empty needle is contained in every character list (JS
`s.includes("")` is always true). -/
theorem charsContain_nil (l : List Char) : charsContain [] l = true := by
  induction l with
  | nil => rfl
  | cons x xs ih => simp [charsContain, List.isPrefixOf, ih]

/-- JS `s.includes("")` is true for every string. -/
theorem jsIncludes_empty (s : String) : jsIncludes s "" = true :=
  charsContain_nil s.toList

/-- Lowercasing the empty string yields the empty string. -/
theorem jsToLower_blank : jsToLower "" = "" := rfl

/-- The probe loop equals a first-success search over the probe list. -/
theorem probeStatus_eq_find (env : GHEnv) (nameOrPath : String) :
    ∀ dirs : List String, probeStatus env nameOrPath dirs =
      (dirs.map fun status => status ++ "/" ++ nameOrPath).find?
        fun candidate => (env.listing candidate).isSome
  | [] => rfl
  | s :: rest => by
    by_cases h : (env.listing (s ++ "/" ++ nameOrPath)).isSome
    · simp [probeStatus, h, List.find?_cons_of_pos]
    · simp only [probeStatus, List.map_cons]
      rw [if_neg (by simpa using h), List.find?_cons_of_neg _ (by simpa using h)]
      exact probeStatus_eq_find env nameOrPath rest

/-- When the root listing succeeds, recognized status folders exist, and
the status-folder walk produces at least one descriptor, `getProjects`
returns exactly the walk's concatenated output (no fallback fires). -/
theorem getProjects_eq_flatMap (env : GHEnv) (data : List ProjectFile)
    (hroot : env.listing "" = some data)
    (hsr : statusRootsOf data ≠ [])
    (hne : (statusRootsOf data).flatMap (perStatus env) ≠ []) :
    getProjects env = (statusRootsOf data).flatMap (perStatus env) := by
  simp [getProjects, hroot, List.isEmpty_iff, hsr, hne]

/-- A disjunction of `isEmpty` with `all contains` is the universal
membership statement. -/
theorem emptyOrAll_contains_iff (l target : List String) :
    (l.isEmpty = true ∨ (l.all fun x => target.contains x) = true) ↔ ∀ x ∈ l, x ∈ target := by
  cases l with
  | nil => simp
  | cons a t => simp [List.all_eq_true, List.contains, List.elem_iff]

/-! ### Claim theorems -/

/-- Claim C2: on the spec's demo Markdown the extractor returns
description `"A test app"` and tags `["Go", "Rust"]` (the tag line is
split on commas, segments trimmed, empty segments dropped). -/
theorem extraction_demo_markdown :
    extractDescriptionFromContent demoContent = "A test app" ∧
      extractTagsFromContent demoContent = ["Go", "Rust"] := by
  decide

/-- Claim C3, counterexample: the source returns the captured remainder
without trimming, so a description line with trailing spaces yields a
description with trailing whitespace, not the trimmed `"text"` the claim
states. -/
theorem description_trailing_cex :
    extractDescriptionFromContent trailingContent = "text  " ∧
      ("text  " : String) ≠ "text" := by
  decide

/-- Claim C3 (amended): whenever line index 2 matches the description
pattern, the extracted description is the captured remainder exactly as
captured — leading whitespace is consumed by the pattern, but no trimming
is applied, so trailing whitespace survives. -/
theorem description_is_raw_capture (content : String) (d : String)
    (hlen : 3 ≤ (jsSplit content '\n').length)
    (hcap : matchCapture descPattern ((jsSplit content '\n').getD 2 "") = some d) :
    extractDescriptionFromContent content = d := by
  have hcap2 : matchCapture descPattern ((jsSplit content '\n')[2]?.getD "") = some d := by
    simpa [List.getD] using hcap
  simp [extractDescriptionFromContent, hlen, hcap2]

/-- Witness for `description_is_raw_capture` at the trailing-space line. -/
theorem description_is_raw_capture_witness :
    matchCapture descPattern trailingLine = some "text  " ∧
      extractDescriptionFromContent trailingContent = "text  " :=
  ⟨by decide, description_is_raw_capture trailingContent "text  " (by decide) (by decide)⟩

/-- Claim C8: Markdown with fewer than five lines yields the empty tag
list (the extractor is a total function: no exception reaches callers). -/
theorem tags_default_on_short_markdown (content : String)
    (h : (jsSplit content '\n').length < 5) :
    extractTagsFromContent content = [] := by
  have h2 : ¬ (5 ≤ (jsSplit content '\n').length) := by omega
  simp [extractTagsFromContent, h2]

/-- Witness for `tags_default_on_short_markdown` on a two-line file. -/
theorem tags_default_on_short_markdown_witness :
    (jsSplit shortContent '\n').length < 5 ∧ extractTagsFromContent shortContent = [] :=
  ⟨by decide, tags_default_on_short_markdown shortContent (by decide)⟩

/-- Claim C5: path resolution follows the spec's probe order — a slashed
input is returned unchanged with no probe, otherwise the bare name and
then each `"<status>/<name>"` candidate are probed in the fixed
`STATUS_DIRS` order, the first success winning and `none` returned when
every probe fails. -/
theorem resolve_follows_probe_order (env : GHEnv) (nameOrPath : String) :
    resolveProjectPath env nameOrPath = resolveSpecOrder env nameOrPath := by
  unfold resolveProjectPath resolveSpecOrder
  by_cases hslash : pathHasSlash nameOrPath
  · simp [hslash]
  · by_cases hdirect : (env.listing nameOrPath).isSome
    · simp [hslash, hdirect, List.find?_cons_of_pos]
    · simp only [hslash, Bool.false_eq_true, if_false]
      rw [if_neg (by simpa using hdirect), List.find?_cons_of_neg _ (by simpa using hdirect)]
      exact probeStatus_eq_find env nameOrPath STATUS_DIRS

/-- Claim C1, code evaluation: `extractDescriptionFromProject` is the
only metadata extraction the source defines for description/redirect
data, and it returns a plain string. On a project whose Markdown's first
line is the redirect link `[Demo](https://example.com)`, its entire
output is `""`: no `redirectUrl` value is produced anywhere (the caller
in page.tsx destructures `{description, redirectUrl}` from this string,
obtaining `undefined` for both). -/
theorem redirect_never_extracted_eval :
    extractDescriptionFromProject envRedirect "Completed/Demo" = "" ∧
      extractDescriptionFromContent redirectContent = "" := by
  decide

/-- Claim C4: with a successfully listed root containing recognized
status folders, all of whose listings succeed and at least one of which
has a folder-type child, discovery returns exactly the per-child
descriptors of the status folders — status is the parent folder name,
path is `"<status>/<child>"` — and nothing else (the unrelated root
folders and their contents never appear). -/
theorem discovery_emits_status_children (env : GHEnv) (data : List ProjectFile)
    (hroot : env.listing "" = some data)
    (hsr : statusRootsOf data ≠ [])
    (hok : ∀ s ∈ statusRootsOf data, (env.listing s.name).isSome = true)
    (hchild : ∃ s ∈ statusRootsOf data, dirOnly ((env.listing s.name).getD []) ≠ []) :
    getProjects env = (statusRootsOf data).flatMap (perStatus env) ∧
      ∀ p ∈ getProjects env, p.status ∈ STATUS_DIRS ∧ p.path = p.status ++ "/" ++ p.name := by
  obtain ⟨s, hs, hd⟩ := hchild
  obtain ⟨sub, hsub⟩ := Option.isSome_iff_exists.mp (hok s hs)
  have hd2 : dirOnly sub ≠ [] := by
    rw [hsub] at hd
    simpa using hd
  have hpne : perStatus env s ≠ [] := by
    simp only [perStatus, hsub]
    intro hmap
    exact hd2 (List.map_eq_nil_iff.mp hmap)
  obtain ⟨q, hq⟩ := List.exists_mem_of_ne_nil _ hpne
  have hne : (statusRootsOf data).flatMap (perStatus env) ≠ [] :=
    List.ne_nil_of_mem (List.mem_flatMap.mpr ⟨s, hs, hq⟩)
  have heq := getProjects_eq_flatMap env data hroot hsr hne
  refine ⟨heq, ?_⟩
  intro p hp
  rw [heq, List.mem_flatMap] at hp
  obtain ⟨t, ht, hpt⟩ := hp
  have ht2 : t ∈ (dirOnly data).filter fun dir => STATUS_DIRS.contains dir.name := ht
  have htname : t.name ∈ STATUS_DIRS := by
    have h3 := (List.mem_filter.mp ht2).2
    simpa [List.contains, List.elem_iff] using h3
  cases hl : env.listing t.name with
  | none => simp [perStatus, hl] at hpt
  | some tsub =>
    simp only [perStatus, hl, List.mem_map] at hpt
    obtain ⟨e, he, hep⟩ := hpt
    subst hep
    exact ⟨htname, rfl⟩

/-- Witness for `discovery_emits_status_children` on a root listing with
`Completed`, `In Progress` and an unrelated `Notes` folder. -/
theorem discovery_emits_status_children_witness :
    getProjects envDiscovery = (statusRootsOf dataStatusRoot).flatMap (perStatus envDiscovery) :=
  (discovery_emits_status_children envDiscovery dataStatusRoot rfl (by decide) (by decide)
    (by decide)).1

/-- Claim C9: when the root listing succeeds and at least one descriptor
is produced, `getProjects` equals the concatenation of each status
folder's contribution, and a status folder whose child listing failed
contributes nothing — a mid-level failure neither aborts the pipeline nor
discards the descriptors of the folders that listed successfully. -/
theorem discovery_survives_failed_listing (env : GHEnv) (data : List ProjectFile)
    (hroot : env.listing "" = some data)
    (hsr : statusRootsOf data ≠ [])
    (hne : (statusRootsOf data).flatMap (perStatus env) ≠ []) :
    getProjects env = (statusRootsOf data).flatMap (perStatus env) ∧
      ∀ s ∈ statusRootsOf data, env.listing s.name = none → perStatus env s = [] := by
  refine ⟨getProjects_eq_flatMap env data hroot hsr hne, ?_⟩
  intro s _ hfail
  simp [perStatus, hfail]

/-- Witness for `discovery_survives_failed_listing`: the `Completed`
listing fails, yet the `In Progress` descriptor survives. -/
theorem discovery_survives_failed_listing_witness :
    getProjects envFailedStatus =
      (statusRootsOf dataStatusRoot).flatMap (perStatus envFailedStatus) :=
  (discovery_survives_failed_listing envFailedStatus dataStatusRoot rfl (by decide)
    (by decide)).1

/-- Claim C7: a parsed configuration whose `githubUser` is missing, or
trims to the empty string, makes loading fail with the thrown error; no
configuration value is returned. The loader's only input is the parsed
file — no remote call is involved. -/
theorem config_rejects_blank_user (parsed : ParsedConfig)
    (h : parsed.githubUser = none ∨ ∃ s, parsed.githubUser = some s ∧ jsTrim s = "") :
    loadConfigFromDisk (some (some parsed)) =
      Except.error ("config.yaml must define a non-empty githubUser value") := by
  rcases h with h | ⟨s, hs, ht⟩
  · simp [loadConfigFromDisk, h]
  · simp [loadConfigFromDisk, hs, ht, String.isEmpty]

/-- Witness for `config_rejects_blank_user` on a whitespace-only user. -/
theorem config_rejects_blank_user_witness :
    loadConfigFromDisk (some (some parsedBlankUser)) =
      Except.error ("config.yaml must define a non-empty githubUser value") :=
  config_rejects_blank_user parsedBlankUser (Or.inr ⟨"   ", rfl, by decide⟩)

/-- Claim C6, counterexample: the stated iff fails on three concrete
inputs, one per matching rule. Status: the code compares the lowercased
status against the filter verbatim, so the capitalized filter
`"Completed"` drops a `"Completed"` project the claim keeps. Name: the
code trims the search term, so `" demo "` keeps a project named `"Demo"`
that the claim's untrimmed containment drops. Tags: the code compares
selected tags verbatim against lowercased tags, so the capitalized
selected tag `"Go"` drops a project tagged `"Go"` that the claim's
case-insensitive rule keeps. -/
theorem gallery_filter_claim_cex :
    (¬ (cardCompleted ∈ filteredProjects [cardCompleted] "" "Completed" [] ↔
        (cardCompleted ∈ [cardCompleted] ∧ claimNameMatches cardCompleted "" ∧
          claimStatusMatches cardCompleted "Completed" ∧ claimTagsMatch cardCompleted []))) ∧
      (¬ (cardCompleted ∈ filteredProjects [cardCompleted] " demo " "all" [] ↔
        (cardCompleted ∈ [cardCompleted] ∧ claimNameMatches cardCompleted " demo " ∧
          claimStatusMatches cardCompleted "all" ∧ claimTagsMatch cardCompleted []))) ∧
      (¬ (cardGoOnly ∈ filteredProjects [cardGoOnly] "" "all" ["Go"] ↔
        (cardGoOnly ∈ [cardGoOnly] ∧ claimNameMatches cardGoOnly "" ∧
          claimStatusMatches cardGoOnly "all" ∧ claimTagsMatch cardGoOnly ["Go"]))) := by
  refine ⟨by decide, by decide, by decide⟩

/-- Claim C6 (amended): a project is kept iff its lowercased name contains
the trimmed lowercased search term, the filter is `"all"` or equals the
lowercased status verbatim, and every selected tag string is verbatim in
the lowercased tag list — AND semantics over selected tags; the UI
supplies filter and tag values already lowercased, for which this is the
claim's case-insensitive matching. -/
theorem gallery_keep_iff (projects : List ProjectCard) (searchTerm statusFilter : String)
    (selectedTags : List String) (project : ProjectCard) :
    project ∈ filteredProjects projects searchTerm statusFilter selectedTags ↔
      project ∈ projects ∧ codeNameMatches project searchTerm ∧
        codeStatusMatches project statusFilter ∧ codeTagsMatch project selectedTags := by
  simp only [filteredProjects, List.mem_filter, Bool.and_eq_true, Bool.or_eq_true,
    beq_iff_eq, emptyOrAll_contains_iff, codeNameMatches, codeStatusMatches, codeTagsMatch,
    and_assoc]

/-- Witness for `gallery_keep_iff`: with selected tags `["go", "rust"]` a
project tagged only `Go` is excluded (AND semantics). -/
theorem gallery_keep_iff_witness :
    cardGoOnly ∉ filteredProjects [cardGoOnly] "" "all" ["go", "rust"] :=
  fun h =>
    absurd ((gallery_keep_iff [cardGoOnly] "" "all" ["go", "rust"] cardGoOnly).mp h)
      (by decide)

/-- Claim C10: gallery filtering returns a sublist of the input (same
order, no duplication, no invention), and with a whitespace-only search
term, the `"all"` status filter and no selected tags it returns the input
unchanged. -/
theorem gallery_sublist_and_neutral (projects : List ProjectCard)
    (searchTerm statusFilter : String) (selectedTags : List String) :
    List.Sublist (filteredProjects projects searchTerm statusFilter selectedTags) projects ∧
      (jsTrim searchTerm = "" → statusFilter = "all" → selectedTags = [] →
        filteredProjects projects searchTerm statusFilter selectedTags = projects) := by
  constructor
  · unfold filteredProjects
    exact List.filter_sublist projects
  · intro h1 h2 h3
    subst h2
    subst h3
    unfold filteredProjects
    rw [h1, jsToLower_blank]
    rw [List.filter_eq_self]
    intro a _
    simp [jsIncludes_empty]

/-- Witness for `gallery_sublist_and_neutral` at a single-card list and a
whitespace search term. -/
theorem gallery_sublist_and_neutral_witness :
    filteredProjects [cardNeutral] " " "all" [] = [cardNeutral] :=
  (gallery_sublist_and_neutral [cardNeutral] " " "all" []).2 (by decide) rfl rfl
